import Mathlib

/- Shallow embedding of the cache, package-collection and repository-pool
   parts of the repository: src/src/poetry/utils/cache.py,
   src/src/poetry/packages/package_collection.py and
   src/poetry/packages/package_collection.py.  External collaborators
   (hashlib digests, the json payload codec, poetry.utils.wheel.Wheel and
   the repository pool construction) are modelled as stated in the doc
   comment of each definition introducing them. -/

/- Sentinel used by cachy-compatible caches for items that do not expire
   (cache.py, MAX_DATE). -/
def MAX_DATE : Nat := 9999999999

/- CacheItem (cache.py): stores data and metadata for cache items.
   The expiration is an absolute timestamp in seconds since the epoch. -/
structure CacheItem (T : Type) where
  data : T
  expires : Option Nat
deriving DecidableEq, Repr

/-- CacheItem.expired (cache.py): true if the cache item has exceeded its
expiration period.  The ambient clock time.time() is passed explicitly as
now. -/
def CacheItem.expired {T : Type} (now : Nat) (item : CacheItem T) : Bool :=
  match item.expires with
  | none => false
  | some e => decide (e ≤ now)

/- Big-endian decimal digit expansion with exactly k digits, the embedding
   of the zero-padded fixed-width decimal format used by FileCache._serialize
   for the expiration timestamp.  Faithful to the Python format for values
   below 10 to the power k; the cache only ever stores timestamps up to the
   MAX_DATE sentinel, which fits in 10 digits. -/
def natToDigits : Nat → Nat → List Char
  | 0, _ => []
  | k + 1, n => natToDigits k (n / 10) ++ [Char.ofNat (48 + n % 10)]

/- Decimal value of a digit string, the embedding of Python int() applied
   to a string of decimal digits. -/
def digitsToNat (l : List Char) : Nat :=
  l.foldl (fun a c => a * 10 + (c.toNat - 48)) 0

def isDecDigit (c : Char) : Bool :=
  48 ≤ c.toNat && c.toNat ≤ 57

/- Embedding of Python int() applied to an arbitrary string: succeeds
   exactly on nonempty all-digit strings (sign prefixes never occur in the
   fixed-width cache prefix). -/
def parseDecimal (l : List Char) : Option Nat :=
  if l ≠ [] ∧ l.all isDecDigit then some (digitsToNat l) else none

/-- FileCache._expiration (cache.py): the time in seconds since epoch that
occurs the given number of minutes from now. -/
def file_cache_expiration (now minutes : Nat) : Nat :=
  now + minutes * 60

/-- FileCache._serialize (cache.py): a 10-digit expiration prefix followed
by the JSON payload.  The payload codec json.dumps is the parameter dumps;
Python `payload.expires or MAX_DATE` maps a missing expiration, and also a
zero expiration (falsy in Python), to the MAX_DATE sentinel. -/
def file_cache_serialize {T : Type} (dumps : T → String) (item : CacheItem T) :
    List Char :=
  let e : Nat :=
    match item.expires with
    | none => MAX_DATE
    | some x => if x = 0 then MAX_DATE else x
  natToDigits 10 e ++ (dumps item.data).data

/-- FileCache._deserialize (cache.py): the expiration is read back from the
first 10 characters alone, the payload from the rest via the json.loads
parameter loads.  A failure of either (an exception in Python) is none. -/
def file_cache_deserialize {T : Type} (loads : String → Option T)
    (raw : List Char) : Option (CacheItem T) :=
  match loads (String.mk (raw.drop 10)), parseDecimal (raw.take 10) with
  | some d, some e => some ⟨d, some e⟩
  | _, _ => none

/-- FileCache.put (cache.py): store an item in the cache.  The filesystem
under the cache root is the map store from keys to raw file contents (the
key-to-path function _path is injective per key, so files are addressed by
their key); mkdir of the parents has no observable effect in this model. -/
def file_cache_put {T : Type} (dumps : T → String)
    (store : String → Option (List Char)) (key : String) (value : T)
    (minutes : Option Nat) (now : Nat) : String → Option (List Char) :=
  fun k =>
    if k = key then
      some (file_cache_serialize dumps
        ⟨value, minutes.map (fun m => file_cache_expiration now m)⟩)
    else store k

/-- FileCache.forget (cache.py): remove an item from the cache. -/
def file_cache_forget (store : String → Option (List Char)) (key : String) :
    String → Option (List Char) :=
  fun k => if k = key then none else store k

/-- FileCache._get_payload / FileCache.get (cache.py): a missing file is a
miss; an expired payload is forgotten (its file removed) and reported as a
miss; otherwise the payload data is returned.  A payload the codec cannot
decode raises in Python, modelled as Except.error.  The result pairs the
returned value with the filesystem state after the call. -/
def file_cache_get {T : Type} (loads : String → Option T)
    (store : String → Option (List Char)) (key : String) (now : Nat) :
    Except String (Option T × (String → Option (List Char))) :=
  match store key with
  | none => .ok (none, store)
  | some raw =>
    match file_cache_deserialize loads raw with
    | none => .error "malformed cache entry"
    | some payload =>
      if CacheItem.expired now payload then
        .ok (none, file_cache_forget store key)
      else
        .ok (some payload.data, store)

/- _HASHES (cache.py): the table of supported FileCache hash algorithms.
   Alongside the shard count taken from the source, the model records the
   length in hex characters of the digest the algorithm produces (md5 is
   128 bits, sha1 160 bits, sha256 256 bits), a fact of the external
   hashlib collaborator. -/
structure HashSpec where
  hexLen : Nat
  shardCount : Nat
deriving DecidableEq, Repr

def HASHES (hash_type : String) : Option HashSpec :=
  if hash_type = "md5" then some ⟨32, 2⟩
  else if hash_type = "sha1" then some ⟨40, 4⟩
  else if hash_type = "sha256" then some ⟨64, 8⟩
  else none

/-- FileCache.__post_init__ (cache.py): an unknown hash algorithm is
rejected at construction with a ValueError. -/
def file_cache_check_hash_type (hash_type : String) : Except String Unit :=
  if (HASHES hash_type).isSome then .ok ()
  else .error ("FileCache.hash_type is unknown value: \u0027" ++ hash_type ++ "\u0027.")

/- Consecutive two-character chunks of a list, the embedding of the list
   comprehension h[i : i + 2] for i in range(0, len(h), 2) in
   FileCache._path. -/
def chunkPairs : List Char → List (List Char)
  | [] => []
  | [a] => [[a]]
  | a :: b :: rest => [a, b] :: chunkPairs rest

/-- FileCache._path (cache.py): the on-disk path of a key, as the list of
path components below (and including) the cache root.  The hex digest of
the key under the configured algorithm is passed in as hexDigest, the
external hashlib collaborator being abstract; its length for each
algorithm is recorded in HASHES. -/
def file_cache_path (hash_type : String) (base : List String)
    (hexDigest : String) : List String :=
  match HASHES hash_type with
  | none => base
  | some spec =>
    base ++ ((chunkPairs hexDigest.data).take spec.shardCount).map String.mk
      ++ [hexDigest]

/- Characters used by the JSON encoder, named to keep literals readable. -/
def quoteC : Char := Char.ofNat 34

def backslashC : Char := Char.ofNat 92

def lbraceC : Char := Char.ofNat 123

def rbraceC : Char := Char.ofNat 125

def hexDigitChar (n : Nat) : Char :=
  if n < 10 then Char.ofNat (48 + n) else Char.ofNat (87 + n)

/- json.dumps character escaping with ensure_ascii=True (an external
   collaborator of get_cache_directory_for_link): double quote, backslash
   and the common control characters get two-character escapes, every other
   character outside the printable ASCII range 0x20..0x7e gets a four-hex
   \u escape (characters beyond the basic multilingual plane become
   surrogate pairs in CPython; they are outside the plain-ASCII strings the
   theorems quantify over), printable ASCII is emitted verbatim. -/
def escapeJsonChar (c : Char) : List Char :=
  if c = quoteC then [backslashC, quoteC]
  else if c = backslashC then [backslashC, backslashC]
  else if c.toNat = 8 then [backslashC, 'b']
  else if c.toNat = 9 then [backslashC, 't']
  else if c.toNat = 10 then [backslashC, 'n']
  else if c.toNat = 12 then [backslashC, 'f']
  else if c.toNat = 13 then [backslashC, 'r']
  else if c.toNat < 32 ∨ 126 < c.toNat then
    [backslashC, 'u', hexDigitChar (c.toNat / 4096 % 16),
      hexDigitChar (c.toNat / 256 % 16), hexDigitChar (c.toNat / 16 % 16),
      hexDigitChar (c.toNat % 16)]
  else [c]

def escapeJson (s : String) : List Char :=
  (s.data.map escapeJsonChar).flatten

def quoteJson (s : String) : List Char :=
  quoteC :: escapeJson s ++ [quoteC]

/- One key-value member of a JSON object under the separators (",", ":")
   passed by get_cache_directory_for_link. -/
def jsonMember (k v : String) : List Char :=
  quoteJson k ++ ':' :: quoteJson v

def jsonMembers : List (String × String) → List Char
  | [] => []
  | [(k, v)] => jsonMember k v
  | (k, v) :: p :: rest => jsonMember k v ++ ',' :: jsonMembers (p :: rest)

/- json.dumps of a string-to-string object with sort_keys=True,
   separators=(",", ":") and ensure_ascii=True, applied to an already
   key-sorted member list. -/
def jsonDumpObject (l : List (String × String)) : String :=
  String.mk (lbraceC :: jsonMembers l ++ [rbraceC])

/- Code-point lexicographic order on strings, the order Python uses to
   sort JSON object keys under sort_keys=True. -/
def charListLt : List Char → List Char → Bool
  | [], [] => false
  | [], _ :: _ => true
  | _ :: _, [] => false
  | a :: as, b :: bs =>
    if a.toNat < b.toNat then true
    else if b.toNat < a.toNat then false
    else charListLt as bs

def strLt (a b : String) : Bool := charListLt a.data b.data

def strLe (a b : String) : Bool := !(charListLt b.data a.data)

def insertByKey (p : String × String) :
    List (String × String) → List (String × String)
  | [] => [p]
  | q :: qs => if strLe p.1 q.1 then p :: q :: qs else q :: insertByKey p qs

/- Stable key sort of the object members, the sort_keys=True behaviour of
   json.dumps. -/
def sortByKey : List (String × String) → List (String × String)
  | [] => []
  | p :: ps => insertByKey p (sortByKey ps)

/- Link (poetry.core.packages.utils.link, an external collaborator): the
   attributes get_cache_directory_for_link reads, plus the remainder of the
   URL fragment, which the code never reads (kept in the model to state
   that it cannot influence the cache directory).  In poetry-core the hash
   name/value and the subdirectory come from link construction or from the
   recognised fragment forms; any other fragment text is irrelevant. -/
structure Link where
  url_without_fragment : String
  hash_name : Option String
  hash : Option String
  subdirectory_fragment : Option String
  irrelevant_fragment : String
deriving DecidableEq, Repr

/-- ArtifactCache.get_cache_directory_for_link (cache.py): the key parts
dict in insertion order; json.dumps then sorts the keys.  Python dict
semantics would collapse a duplicate key; the model keeps an association
list, faithful whenever the hash name is neither "url" nor "subdirectory"
(always true of real hash algorithm names). -/
def link_key_parts (link : Link) : List (String × String) :=
  [("url", link.url_without_fragment)]
    ++ (match link.hash_name, link.hash with
        | some n, some v => [(n, v)]
        | _, _ => [])
    ++ (if link.subdirectory_fragment.getD "" ≠ "" then
          [("subdirectory", link.subdirectory_fragment.getD "")]
        else [])

/-- The canonical JSON key string hashed by get_cache_directory_for_link. -/
def link_key_json (link : Link) : String :=
  jsonDumpObject (sortByKey (link_key_parts link))

/-- ArtifactCache.get_cache_directory_for_link (cache.py): cache directory
as the list of path components.  The external hashlib.sha256 hex digest is
the parameter sha256hex. -/
def get_cache_directory_for_link (sha256hex : String → String)
    (cache_dir : List String) (link : Link) : List String :=
  let key := (sha256hex (link_key_json link)).data
  cache_dir ++ [String.mk (key.take 2), String.mk ((key.drop 2).take 2),
    String.mk ((key.drop 4).take 2), String.mk (key.drop 6)]

/- Env (poetry.utils.env, an external collaborator): the only attribute
   the cache lookup reads is the ordered supported-tag list, most specific
   first. -/
structure EnvModel where
  supported_tags : List String
deriving DecidableEq, Repr

/- A file cached under a link key.  The name is the file name on disk.
   Modelled from the spec: poetry.utils.wheel.Wheel is not under src/, so
   the result of parsing the name as a wheel is carried alongside: some
   tags when the name parses as a wheel with that compatibility tag set,
   none when parsing raises InvalidWheelName. -/
structure CachedArchive where
  name : String
  wheel_tags : Option (List String)
deriving DecidableEq, Repr

/- Path.suffix equality with ".whl" (the archive.suffix != ".whl" test of
   get_cached_archive_for_link), as a suffix test on the file name. -/
def hasWhlSuffix (name : String) : Bool :=
  name.data.drop (name.data.length - 4) == ['.', 'w', 'h', 'l']

/-- Modelled from the spec: Wheel.get_minimum_supported_index combined with
Wheel.is_supported_by_environment — a wheel is scored by the minimum index
of its tags in the environment supported-tag list, none when no tag of the
wheel is supported. -/
def get_minimum_supported_index (tags supported : List String) : Option Nat :=
  supported.findIdx? (fun t => tags.contains t)

/-- The candidate list built by the non-strict loop of
ArtifactCache.get_cached_archive_for_link (cache.py): a non-wheel archive
scores infinity (none in the score order below), an unparsable wheel name
is skipped, a wheel unsupported by the environment is skipped, a supported
wheel scores its minimum supported-tag index. -/
def archive_candidates (env : EnvModel) :
    List CachedArchive → List (Option Nat × CachedArchive)
  | [] => []
  | a :: rest =>
    (if hasWhlSuffix a.name then
      match a.wheel_tags with
      | none => []
      | some tags =>
        match get_minimum_supported_index tags env.supported_tags with
        | none => []
        | some i => [(some i, a)]
    else [(none, a)])
      ++ archive_candidates env rest

/- Comparison of candidate scores: float indices compare numerically and
   float("inf"), here none, is above every index. -/
def scoreLt : Option Nat → Option Nat → Bool
  | some a, some b => decide (a < b)
  | some _, none => true
  | none, _ => false

/- Python tuple comparison on (score, path) pairs as used by
   min(candidates): scores first, the path (its name string, compared
   code-point-wise like PurePath ordering on posix) breaking ties. -/
def candidateLt (x y : Option Nat × CachedArchive) : Bool :=
  scoreLt x.1 y.1 || (x.1 == y.1 && charListLt x.2.name.data y.2.name.data)

/- Python min() over a nonempty list: the first element minimal under the
   strict order. -/
def pickMinCandidate : List (Option Nat × CachedArchive) →
    Option (Option Nat × CachedArchive)
  | [] => none
  | c :: cs => some (cs.foldl (fun best x => if candidateLt x best then x else best) c)

/-- ArtifactCache.get_cached_archive_for_link (cache.py).  The archive list
is the directory listing _get_cached_archives_for_link produces for the
link key (abstract filesystem state).  Strict mode returns the first
archive literally named like the link; non-strict mode returns the
minimum-scored candidate, none when no candidate remains. -/
def get_cached_archive_for_link (link_filename : String) (strict : Bool)
    (env : EnvModel) (archives : List CachedArchive) : Option CachedArchive :=
  if archives = [] then none
  else if strict then archives.find? (fun a => a.name == link_filename)
  else (pickMinCandidate (archive_candidates env archives)).map (·.2)

/- Package (poetry.core, an external collaborator): a value object; its
   name and version are all the package-collection claims read. -/
structure Package where
  name : String
  version : String
deriving DecidableEq, Repr

/- Dependency (poetry.core, an external collaborator): a named
   requirement with a version constraint. -/
structure Dependency where
  name : String
  constraint : String
deriving DecidableEq, Repr

/- DependencyPackage (poetry/packages/dependency_package.py): a Package
   paired with the Dependency that led to its selection; a plain pairing,
   its constructor performs no validation. -/
structure DependencyPackage where
  dependency : Dependency
  package : Package
deriving DecidableEq, Repr

/- The argument type of PackageCollection.append: a bare Package or an
   already wrapped DependencyPackage. -/
inductive PackageInput where
  | pkg (p : Package)
  | dp (d : DependencyPackage)
deriving DecidableEq, Repr

def PackageInput.underlying : PackageInput → Package
  | .pkg p => p
  | .dp d => d.package

/-- PackageCollection.append (poetry/packages/package_collection.py, the
older copy): an incoming DependencyPackage is unwrapped to its package,
then the package is wrapped with the owning dependency and appended. -/
def oldPackageCollectionAppend (dependency : Dependency)
    (elems : List DependencyPackage) (x : PackageInput) :
    List DependencyPackage :=
  elems ++ [⟨dependency, x.underlying⟩]

/-- PackageCollection.__init__ (poetry/packages/package_collection.py, the
older copy): starts empty and appends each given element in order. -/
def oldPackageCollectionInit (dependency : Dependency)
    (packages : List PackageInput) : List DependencyPackage :=
  packages.foldl (fun acc x => oldPackageCollectionAppend dependency acc x) []

/-- PackageCollection.append (src/poetry/packages/package_collection.py,
the newer copy): identical unwrap-and-rewrap behaviour. -/
def newPackageCollectionAppend (dependency : Dependency)
    (elems : List DependencyPackage) (x : PackageInput) :
    List DependencyPackage :=
  elems ++ [⟨dependency, x.underlying⟩]

/-- PackageCollection.__init__ (src/poetry/packages/package_collection.py,
the newer copy): starts empty and appends each given element in order. -/
def newPackageCollectionInit (dependency : Dependency)
    (packages : List PackageInput) : List DependencyPackage :=
  packages.foldl (fun acc x => newPackageCollectionAppend dependency acc x) []

/- Source priority tiers (poetry.repositories.repository_pool.Priority,
   an external-to-src collaborator referenced by the tests). -/
inductive SourcePriority where
  | explicitTier
  | secondaryTier
  | primaryTier
  | defaultTier
deriving DecidableEq, Repr

/- A configured package source: the legacy boolean default/secondary flags
   and the current priority form (tests/console/commands/source/conftest.py
   constructs both forms). -/
structure Source where
  name : String
  url : String
  legacy_default : Bool
  legacy_secondary : Bool
  priority : Option SourcePriority
deriving DecidableEq, Repr

/- A source counts as the default source under either configuration form. -/
def sourceIsDefault (s : Source) : Bool :=
  s.legacy_default || s.priority == some .defaultTier

/-- Modelled from the spec: the repository pool construction performed by
Factory.create_poetry (not under src/; exercised by
tests/test_factory.py::test_poetry_with_two_default_sources_legacy and
::test_poetry_with_two_default_sources).  Sources are added one by one at
construction time, before any resolution; adding a default source when the
pool already holds one raises ValueError("Only one repository can be the
default.") immediately. -/
def addSourcesAux : Bool → List Source → Except String (List Source)
  | _, [] => .ok []
  | hasDefault, s :: rest =>
    if sourceIsDefault s && hasDefault then
      .error "Only one repository can be the default."
    else
      (addSourcesAux (hasDefault || sourceIsDefault s) rest).map (s :: ·)

/-- Modelled from the spec: pool construction from the configured source
list, starting with no default registered. -/
def buildRepositoryPool (sources : List Source) : Except String (List Source) :=
  addSourcesAux false sources

/- Characters that json.dumps with ensure_ascii=True emits verbatim:
   printable ASCII other than the double quote and the backslash. -/
def plainChar (c : Char) : Bool :=
  decide (32 ≤ c.toNat ∧ c.toNat ≤ 126 ∧ c ≠ quoteC ∧ c ≠ backslashC)

def plainStr (s : String) : Bool :=
  s.data.all plainChar


theorem natToDigits_length (k n : Nat) : (natToDigits k n).length = k := by
  induction k generalizing n with
  | zero => rfl
  | succ k ih => simp [natToDigits, ih]

theorem char_digit_toNat (d : Nat) (h : d < 10) :
    (Char.ofNat (48 + d)).toNat = 48 + d := by
  have hv : Nat.isValidChar (48 + d) := Or.inl (by omega)
  simp only [Char.ofNat, hv, dif_pos, Char.ofNatAux, Char.toNat]
  rfl

theorem natToDigits_all_digits (k n : Nat) :
    (natToDigits k n).all isDecDigit = true := by
  induction k generalizing n with
  | zero => rfl
  | succ k ih =>
    simp only [natToDigits, List.all_append, ih, Bool.true_and, List.all_cons,
      List.all_nil, Bool.and_true]
    have hd := char_digit_toNat (n % 10) (Nat.mod_lt _ (by omega))
    simp [isDecDigit, hd]
    omega

theorem digitsToNat_append (l : List Char) (c : Char) :
    digitsToNat (l ++ [c]) = digitsToNat l * 10 + (c.toNat - 48) := by
  simp [digitsToNat, List.foldl_append]

theorem digitsToNat_natToDigits (k n : Nat) :
    digitsToNat (natToDigits k n) = n % 10 ^ k := by
  induction k generalizing n with
  | zero => simp [natToDigits, digitsToNat, Nat.mod_one]
  | succ k ih =>
    rw [natToDigits, digitsToNat_append, ih, char_digit_toNat _ (by omega)]
    have h10 : (10 : Nat) ^ (k + 1) = 10 * 10 ^ k := by ring
    have hb : 48 + n % 10 - 48 = n % 10 := by omega
    rw [h10, Nat.mod_mul, hb]
    ring

theorem parseDecimal_natToDigits (k n : Nat) (hk : 0 < k) :
    parseDecimal (natToDigits k n) = some (n % 10 ^ k) := by
  unfold parseDecimal
  rw [if_pos, digitsToNat_natToDigits]
  refine ⟨?_, natToDigits_all_digits k n⟩
  intro h
  have hl := natToDigits_length k n
  rw [h] at hl
  simp at hl
  omega

theorem deserialize_serialize {T : Type} (dumps : T → String)
    (loads : String → Option T) (v : T) (hv : loads (dumps v) = some v)
    (e : Nat) (he0 : 0 < e) (he : e ≤ MAX_DATE) :
    file_cache_deserialize loads
      (file_cache_serialize dumps (⟨v, some e⟩ : CacheItem T)) =
      some ⟨v, some e⟩ := by
  have hne : ¬ (e = 0) := by omega
  have he10 : e < 10000000000 := by
    have hmd : MAX_DATE = 9999999999 := rfl
    omega
  have hlen := natToDigits_length 10 e
  unfold file_cache_serialize
  simp only [hne, if_false]
  unfold file_cache_deserialize
  rw [List.take_left' hlen, List.drop_left' hlen,
    parseDecimal_natToDigits 10 e (by omega)]
  have hs : String.mk (dumps v).data = dumps v := rfl
  rw [hs, hv]
  have hlt : e % 10 ^ 10 = e := by
    apply Nat.mod_eq_of_lt
    norm_num
    omega
  simp [hlt]
  omega

/-- C7: For every CacheItem, the expired predicate is true iff the item has
an expiration timestamp and the current time is greater than or equal to
it; an item with no expiration timestamp is never expired. -/
theorem claim_C7_cache_item_expired (T : Type) (item : CacheItem T)
    (now : Nat) :
    (CacheItem.expired now item = true ↔
      ∃ e, item.expires = some e ∧ now ≥ e)
  ∧ (item.expires = none → CacheItem.expired now item = false) := by
  cases h : item.expires with
  | none => simp [CacheItem.expired, h]
  | some e => simp [CacheItem.expired, h, ge_iff_le]

theorem claim_C7_witness :
    (CacheItem.expired 7 (⟨0, some 5⟩ : CacheItem Nat) = true ↔
      ∃ e, (⟨0, some 5⟩ : CacheItem Nat).expires = some e ∧ 7 ≥ e)
  ∧ ((⟨0, some 5⟩ : CacheItem Nat).expires = none →
      CacheItem.expired 7 (⟨0, some 5⟩ : CacheItem Nat) = false) :=
  claim_C7_cache_item_expired Nat ⟨0, some 5⟩ 7

/-- C9: the two PackageCollection implementations present in the repository
(poetry/packages and src/poetry/packages) are behaviorally equal: for every
dependency and every input sequence, construction yields the same ordered
element sequence, and so does every single append. -/
theorem claim_C9_package_collection_equiv (dependency : Dependency)
    (packages : List PackageInput) (elems : List DependencyPackage)
    (x : PackageInput) :
    oldPackageCollectionInit dependency packages =
      newPackageCollectionInit dependency packages
  ∧ oldPackageCollectionAppend dependency elems x =
      newPackageCollectionAppend dependency elems x :=
  ⟨rfl, rfl⟩

/-- C10: appending a DependencyPackage stores its underlying package
re-wrapped with the collection's owning dependency: the stored element's
dependency equals the collection's dependency, not the dependency the
appended value carried. -/
theorem claim_C10_append_rewraps (dependency : Dependency)
    (elems : List DependencyPackage) (d : DependencyPackage) :
    (newPackageCollectionAppend dependency elems (.dp d)).getLast? =
      some ⟨dependency, d.package⟩
  ∧ (d.dependency ≠ dependency →
      ∀ s, (newPackageCollectionAppend dependency elems (.dp d)).getLast? =
        some s → s.dependency = dependency ∧ s.dependency ≠ d.dependency) := by
  have h : (newPackageCollectionAppend dependency elems (.dp d)).getLast? =
      some ⟨dependency, d.package⟩ := by
    simp [newPackageCollectionAppend, PackageInput.underlying]
  refine ⟨h, fun hne s hs => ?_⟩
  rw [h] at hs
  obtain rfl : (⟨dependency, d.package⟩ : DependencyPackage) = s :=
    Option.some.inj hs
  exact ⟨rfl, fun hc => hne hc.symm⟩

theorem claim_C10_witness :
    (newPackageCollectionAppend ⟨"a", "*"⟩ []
        (.dp ⟨⟨"b", "*"⟩, ⟨"b", "1.0"⟩⟩)).getLast? =
      some ⟨⟨"a", "*"⟩, ⟨"b", "1.0"⟩⟩
  ∧ ((⟨⟨"b", "*"⟩, ⟨"b", "1.0"⟩⟩ : DependencyPackage).dependency ≠ ⟨"a", "*"⟩ →
      ∀ s, (newPackageCollectionAppend ⟨"a", "*"⟩ []
          (.dp ⟨⟨"b", "*"⟩, ⟨"b", "1.0"⟩⟩)).getLast? = some s →
        s.dependency = ⟨"a", "*"⟩
        ∧ s.dependency ≠ (⟨⟨"b", "*"⟩, ⟨"b", "1.0"⟩⟩ : DependencyPackage).dependency) :=
  claim_C10_append_rewraps ⟨"a", "*"⟩ [] ⟨⟨"b", "*"⟩, ⟨"b", "1.0"⟩⟩

theorem fold_append_eq_map (dependency : Dependency)
    (packages : List PackageInput) (acc : List DependencyPackage) :
    packages.foldl
      (fun acc x => newPackageCollectionAppend dependency acc x) acc =
      acc ++ packages.map (fun x => ⟨dependency, x.underlying⟩) := by
  induction packages generalizing acc with
  | nil => simp
  | cons x xs ih =>
    rw [List.foldl_cons, ih]
    simp [newPackageCollectionAppend]

/-- C4 counterexample: constructing a collection for the dependency named
"a" from a bare package named "b" stores an element whose underlying
package does not satisfy the owning dependency's name, so the claimed
name invariant fails after construction from this initial list. -/
theorem claim_C4_counterexample :
    ∃ e ∈ newPackageCollectionInit ⟨"a", "*"⟩ [.pkg ⟨"b", "1.0"⟩],
      e.package.name ≠ (⟨"a", "*"⟩ : Dependency).name := by
  refine ⟨⟨⟨"a", "*"⟩, ⟨"b", "1.0"⟩⟩, ?_, ?_⟩
  · simp [newPackageCollectionInit, newPackageCollectionAppend,
      PackageInput.underlying]
  · decide

/-- C4 (amended): every element of a PackageCollection constructed for a
dependency is a DependencyPackage wrapped with the owning dependency (its
package being the corresponding input's underlying package, in input
order), and appending a bare Package auto-wraps it with the owning
dependency; this holds after construction from any initial list and after
every append.  The collection performs no check that the wrapped package
satisfies the owning dependency's name. -/
theorem claim_C4_collection_invariant (dependency : Dependency)
    (packages : List PackageInput) :
    newPackageCollectionInit dependency packages =
      packages.map (fun x => ⟨dependency, x.underlying⟩)
  ∧ (∀ e ∈ newPackageCollectionInit dependency packages,
      e.dependency = dependency)
  ∧ (∀ (elems : List DependencyPackage) (p : Package),
      newPackageCollectionAppend dependency elems (.pkg p) =
        elems ++ [⟨dependency, p⟩]) := by
  have hmap := fold_append_eq_map dependency packages []
  refine ⟨by simpa [newPackageCollectionInit] using hmap, ?_, ?_⟩
  · intro e he
    rw [newPackageCollectionInit, hmap] at he
    simp at he
    obtain ⟨x, _, rfl⟩ := he
    rfl
  · intro elems p
    rfl

theorem claim_C4_witness :
    (newPackageCollectionInit ⟨"a", "*"⟩ [.pkg ⟨"a", "1.0"⟩] =
      ([.pkg ⟨"a", "1.0"⟩] : List PackageInput).map
        (fun x => (⟨⟨"a", "*"⟩, x.underlying⟩ : DependencyPackage)))
  ∧ (∀ e ∈ newPackageCollectionInit ⟨"a", "*"⟩ [.pkg ⟨"a", "1.0"⟩],
      e.dependency = ⟨"a", "*"⟩)
  ∧ (∀ (elems : List DependencyPackage) (p : Package),
      newPackageCollectionAppend ⟨"a", "*"⟩ elems (.pkg p) =
        elems ++ [⟨⟨"a", "*"⟩, p⟩]) :=
  claim_C4_collection_invariant ⟨"a", "*"⟩ [.pkg ⟨"a", "1.0"⟩]

theorem addSourcesAux_error_of_default (sources : List Source)
    (h : 1 ≤ sources.countP (fun s => sourceIsDefault s)) :
    addSourcesAux true sources =
      .error "Only one repository can be the default." := by
  induction sources with
  | nil => simp at h
  | cons s rest ih =>
    by_cases hd : sourceIsDefault s = true
    · simp [addSourcesAux, hd]
    · rw [List.countP_cons, if_neg hd] at h
      rw [addSourcesAux, if_neg (by simp [hd]), Bool.true_or, ih (by omega)]
      rfl

/-- C6: configuring two sources marked as default (under the legacy
default-flag form, the current priority form, or a mix) makes pool
construction fail immediately with ValueError("Only one repository can be
the default."), before any resolution is attempted. -/
theorem claim_C6_two_default_sources (sources : List Source)
    (h : 2 ≤ sources.countP (fun s => sourceIsDefault s)) :
    buildRepositoryPool sources =
      .error "Only one repository can be the default." := by
  unfold buildRepositoryPool
  induction sources with
  | nil => simp at h
  | cons s rest ih =>
    by_cases hd : sourceIsDefault s = true
    · have hrest : 1 ≤ rest.countP (fun s => sourceIsDefault s) := by
        rw [List.countP_cons, if_pos hd] at h
        omega
      rw [addSourcesAux, if_neg (by simp [hd])]
      simp only [hd, Bool.false_or]
      rw [addSourcesAux_error_of_default rest hrest]
      rfl
    · rw [List.countP_cons, if_neg hd] at h
      have hd2 : sourceIsDefault s = false := by simp [hd]
      rw [addSourcesAux, if_neg (by simp [hd])]
      simp only [hd2, Bool.or_false]
      rw [ih (by omega)]
      rfl

theorem claim_C6_witness :
    2 ≤ ([⟨"one", "https://one.com", true, false, none⟩,
          ⟨"two", "https://two.com", false, false, some .defaultTier⟩] :
            List Source).countP (fun s => sourceIsDefault s)
  ∧ buildRepositoryPool
      [⟨"one", "https://one.com", true, false, none⟩,
       ⟨"two", "https://two.com", false, false, some .defaultTier⟩] =
      .error "Only one repository can be the default." :=
  ⟨by decide,
    claim_C6_two_default_sources _ (by decide)⟩

theorem chunkPairs_length : ∀ l : List Char,
    (chunkPairs l).length = (l.length + 1) / 2
  | [] => by simp [chunkPairs]
  | [a] => by simp [chunkPairs]
  | a :: b :: rest => by
    have ih := chunkPairs_length rest
    simp [chunkPairs, ih]
    omega

theorem hashes_cases (ht : String) (spec : HashSpec)
    (h : HASHES ht = some spec) :
    spec = ⟨32, 2⟩ ∨ spec = ⟨40, 4⟩ ∨ spec = ⟨64, 8⟩ := by
  unfold HASHES at h
  split_ifs at h <;> simp_all

/-- C5 counterexample: the claim says deeper sharding for hash families
with SHORTER digests; in the code md5 (128-bit digest, 32 hex chars) gets
2 shard levels while sha256 (256-bit digest, 64 hex chars) gets 8, the
opposite direction. -/
theorem claim_C5_counterexample :
    ¬ (∀ a b sa sb, HASHES a = some sa → HASHES b = some sb →
        sa.hexLen < sb.hexLen → sb.shardCount < sa.shardCount) := by
  intro h
  have := h "md5" "sha256" ⟨32, 2⟩ ⟨64, 8⟩ (by decide) (by decide) (by decide)
  simp at this

/-- C5 (amended): the number of directory shard levels in a key's on-disk
path is determined by the configured hash algorithm (exactly the table's
shard count, for any digest of that algorithm's length), with deeper
sharding for hash families that produce LONGER digests (shard depth is
monotone in digest length over the supported table); an unknown hash
algorithm is rejected at FileCache construction and a known one is
accepted. -/
theorem claim_C5_shard_depth :
    (∀ ht spec base (digest : String), HASHES ht = some spec →
      digest.data.length = spec.hexLen →
      (file_cache_path ht base digest).length =
        base.length + spec.shardCount + 1)
  ∧ (∀ a b sa sb, HASHES a = some sa → HASHES b = some sb →
      sa.hexLen ≤ sb.hexLen → sa.shardCount ≤ sb.shardCount)
  ∧ (∀ ht, HASHES ht = none →
      file_cache_check_hash_type ht =
        .error ("FileCache.hash_type is unknown value: \u0027" ++ ht ++ "\u0027."))
  ∧ (∀ ht, (HASHES ht).isSome →
      file_cache_check_hash_type ht = .ok ()) := by
  refine ⟨?_, ?_, ?_, ?_⟩
  · intro ht spec base digest h hlen
    unfold file_cache_path
    rw [h]
    simp only [List.length_append, List.length_map, List.length_take,
      chunkPairs_length, hlen, List.length_cons, List.length_nil]
    rcases hashes_cases ht spec h with rfl | rfl | rfl <;> simp
  · intro a b sa sb ha hb hle
    rcases hashes_cases a sa ha with rfl | rfl | rfl <;>
      rcases hashes_cases b sb hb with rfl | rfl | rfl <;>
        simp_all
  · intro ht h
    unfold file_cache_check_hash_type
    rw [h]
    rfl
  · intro ht h
    unfold file_cache_check_hash_type
    rw [if_pos h]

theorem claim_C5_witness :
    (HASHES "sha1" = some ⟨40, 4⟩
      ∧ ("aaaaaaaaaaaaaaaaaaaaaaaaaaaaaaaaaaaaaaaa" : String).data.length = 40
      ∧ (file_cache_path "sha1" ["root"]
          "aaaaaaaaaaaaaaaaaaaaaaaaaaaaaaaaaaaaaaaa").length = 1 + 4 + 1)
  ∧ (HASHES "md5" = some ⟨32, 2⟩ ∧ HASHES "sha256" = some ⟨64, 8⟩
      ∧ (2 : Nat) ≤ 8)
  ∧ HASHES "crc32" = none
  ∧ file_cache_check_hash_type "crc32" =
      .error ("FileCache.hash_type is unknown value: \u0027crc32\u0027.")
  ∧ file_cache_check_hash_type "sha256" = .ok () := by
  have h := claim_C5_shard_depth
  refine ⟨⟨by decide, by decide, ?_⟩, ⟨by decide, by decide, ?_⟩, by decide, ?_, ?_⟩
  · exact h.1 "sha1" ⟨40, 4⟩ ["root"] _ (by decide) (by decide)
  · exact h.2.1 "md5" "sha256" ⟨32, 2⟩ ⟨64, 8⟩ (by decide) (by decide) (by decide)
  · exact h.2.2.1 "crc32" (by decide)
  · exact h.2.2.2 "sha256" (by decide)

theorem deserialize_expires {T : Type} (loads : String → Option T)
    (raw : List Char) (p : CacheItem T)
    (h : file_cache_deserialize loads raw = some p) :
    p.expires = some (digitsToNat (raw.take 10)) := by
  unfold file_cache_deserialize at h
  cases hl : loads (String.mk (raw.drop 10)) with
  | none => rw [hl] at h; cases h
  | some d =>
    cases hp : parseDecimal (raw.take 10) with
    | none => rw [hl, hp] at h; cases h
    | some e =>
      rw [hl, hp] at h
      obtain rfl := Option.some.inj h
      unfold parseDecimal at hp
      split_ifs at hp with hc
      obtain rfl := Option.some.inj hp
      rfl

/-- C8: the serialized form of a CacheItem is exactly the 10-digit
zero-padded decimal expiration timestamp (the MAX_DATE sentinel 9999999999
when the expiration is absent) immediately followed by the serialized
payload, and deserialization recovers the expiration from the first 10
characters alone, independent of the payload. -/
theorem claim_C8_serialized_form (T : Type) (dumps : T → String)
    (loads : String → Option T) (item : CacheItem T) (e : Nat) :
    (item.expires = none →
      file_cache_serialize dumps item =
        natToDigits 10 MAX_DATE ++ (dumps item.data).data)
  ∧ (item.expires = some e → 0 < e → e ≤ MAX_DATE →
      file_cache_serialize dumps item =
        natToDigits 10 e ++ (dumps item.data).data
      ∧ (natToDigits 10 e).length = 10
      ∧ (natToDigits 10 e).all isDecDigit = true
      ∧ digitsToNat (natToDigits 10 e) = e)
  ∧ (∀ raw₁ raw₂ p₁ p₂, file_cache_deserialize loads raw₁ = some p₁ →
      file_cache_deserialize loads raw₂ = some p₂ →
      raw₁.take 10 = raw₂.take 10 → p₁.expires = p₂.expires)
  ∧ (∀ raw p, file_cache_deserialize loads raw = some p →
      p.expires = some (digitsToNat (raw.take 10))) := by
  refine ⟨?_, ?_, ?_, fun raw p h => deserialize_expires loads raw p h⟩
  · intro h
    simp [file_cache_serialize, h]
  · intro h he0 hemax
    have hne : ¬ (e = 0) := by omega
    refine ⟨by simp [file_cache_serialize, h, hne], natToDigits_length 10 e,
      natToDigits_all_digits 10 e, ?_⟩
    rw [digitsToNat_natToDigits]
    apply Nat.mod_eq_of_lt
    have hmd : MAX_DATE = 9999999999 := rfl
    norm_num
    omega
  · intro raw₁ raw₂ p₁ p₂ h₁ h₂ hpre
    rw [deserialize_expires loads raw₁ p₁ h₁, deserialize_expires loads raw₂ p₂ h₂,
      hpre]

theorem claim_C8_witness :
    (((⟨"x", none⟩ : CacheItem String).expires = none →
      file_cache_serialize id (⟨"x", none⟩ : CacheItem String) =
        natToDigits 10 MAX_DATE ++ ("x" : String).data)
  ∧ ((⟨"x", none⟩ : CacheItem String).expires = some 1700000000 →
      0 < 1700000000 → 1700000000 ≤ MAX_DATE →
      file_cache_serialize id (⟨"x", none⟩ : CacheItem String) =
        natToDigits 10 1700000000 ++ ("x" : String).data
      ∧ (natToDigits 10 1700000000).length = 10
      ∧ (natToDigits 10 1700000000).all isDecDigit = true
      ∧ digitsToNat (natToDigits 10 1700000000) = 1700000000)
  ∧ (∀ raw₁ raw₂ p₁ p₂,
      file_cache_deserialize (some : String → Option String) raw₁ = some p₁ →
      file_cache_deserialize (some : String → Option String) raw₂ = some p₂ →
      raw₁.take 10 = raw₂.take 10 → p₁.expires = p₂.expires)
  ∧ (∀ raw p, file_cache_deserialize (some : String → Option String) raw = some p →
      p.expires = some (digitsToNat (raw.take 10)))) ∧
    file_cache_serialize id (⟨"x", none⟩ : CacheItem String) =
      natToDigits 10 MAX_DATE ++ ("x" : String).data :=
  ⟨claim_C8_serialized_form String id some ⟨"x", none⟩ 1700000000,
    (claim_C8_serialized_form String id some ⟨"x", none⟩ 1700000000).1 rfl⟩

/-- C1: storing a value with FileCache.put and reading it back with
FileCache.get before the expiration time returns the stored value (the
store unchanged); reading at or after the expiration time returns none and
removes the entry's file, so the entry is gone and a subsequent read also
misses.  Times are within the representable epoch range of the 10-digit
serialization (the clock is positive and the expiration at most the
MAX_DATE sentinel). -/
theorem claim_C1_file_cache_round_trip (T : Type) (dumps : T → String)
    (loads : String → Option T) (hrt : ∀ v, loads (dumps v) = some v)
    (store : String → Option (List Char)) (key : String) (value : T)
    (minutes now : Nat) (hnow : 1 ≤ now)
    (hbound : file_cache_expiration now minutes ≤ MAX_DATE) :
    (∀ t, t < file_cache_expiration now minutes →
      file_cache_get loads
        (file_cache_put dumps store key value (some minutes) now) key t =
        .ok (some value,
          file_cache_put dumps store key value (some minutes) now))
  ∧ (∀ t, file_cache_expiration now minutes ≤ t →
      file_cache_get loads
        (file_cache_put dumps store key value (some minutes) now) key t =
        .ok (none, file_cache_forget
          (file_cache_put dumps store key value (some minutes) now) key)
      ∧ file_cache_forget
          (file_cache_put dumps store key value (some minutes) now) key key =
          none
      ∧ file_cache_get loads
          (file_cache_forget
            (file_cache_put dumps store key value (some minutes) now) key)
          key t =
          .ok (none, file_cache_forget
            (file_cache_put dumps store key value (some minutes) now) key)) := by
  have he0 : 0 < file_cache_expiration now minutes := by
    unfold file_cache_expiration
    omega
  have hkey : file_cache_put dumps store key value (some minutes) now key =
      some (file_cache_serialize dumps
        (⟨value, some (file_cache_expiration now minutes)⟩ : CacheItem T)) := by
    simp [file_cache_put]
  have hdes := deserialize_serialize dumps loads value (hrt value)
    (file_cache_expiration now minutes) he0 hbound
  constructor
  · intro t ht
    have hexp : CacheItem.expired t
        (⟨value, some (file_cache_expiration now minutes)⟩ : CacheItem T) =
        false := by
      simp [CacheItem.expired]
      omega
    simp only [file_cache_get, hkey, hdes, hexp]
    rfl
  · intro t ht
    have hexp : CacheItem.expired t
        (⟨value, some (file_cache_expiration now minutes)⟩ : CacheItem T) =
        true := by
      simp [CacheItem.expired]
      omega
    refine ⟨by simp only [file_cache_get, hkey, hdes, hexp]; rfl, ?_, ?_⟩
    · simp [file_cache_forget]
    · have hmiss : file_cache_forget
          (file_cache_put dumps store key value (some minutes) now) key key =
          none := by
        simp [file_cache_forget]
      simp only [file_cache_get, hmiss]

theorem claim_C1_witness :
    1 ≤ 1000 ∧ file_cache_expiration 1000 5 ≤ MAX_DATE
  ∧ file_cache_get (some : String → Option String)
      (file_cache_put id (fun _ => none) "k" "v" (some 5) 1000) "k" 1200 =
      .ok (some "v", file_cache_put id (fun _ => none) "k" "v" (some 5) 1000)
  ∧ (file_cache_get (some : String → Option String)
      (file_cache_put id (fun _ => none) "k" "v" (some 5) 1000) "k" 1300 =
      .ok (none, file_cache_forget
        (file_cache_put id (fun _ => none) "k" "v" (some 5) 1000) "k")
    ∧ file_cache_forget
        (file_cache_put id (fun _ => none) "k" "v" (some 5) 1000) "k" "k" =
        none
    ∧ file_cache_get (some : String → Option String)
        (file_cache_forget
          (file_cache_put id (fun _ => none) "k" "v" (some 5) 1000) "k")
        "k" 1300 =
        .ok (none, file_cache_forget
          (file_cache_put id (fun _ => none) "k" "v" (some 5) 1000) "k")) :=
  ⟨by decide, by decide,
    (claim_C1_file_cache_round_trip String id some (fun _ => rfl)
      (fun _ => none) "k" "v" 5 1000 (by decide) (by decide)).1 1200 (by decide),
    (claim_C1_file_cache_round_trip String id some (fun _ => rfl)
      (fun _ => none) "k" "v" 5 1000 (by decide) (by decide)).2 1300 (by decide)⟩

theorem scoreLt_irrefl (s : Option Nat) : scoreLt s s = false := by
  cases s <;> simp [scoreLt]

theorem scoreLt_of_not_lt_of_lt (a b c : Option Nat)
    (hab : scoreLt a b = false) (hac : scoreLt a c = true) :
    scoreLt b c = true := by
  cases a <;> cases b <;> cases c <;> simp_all [scoreLt] <;> omega

theorem scoreLt_trans (a b c : Option Nat)
    (hab : scoreLt a b = true) (hbc : scoreLt b c = true) :
    scoreLt a c = true := by
  cases a <;> cases b <;> cases c <;> simp_all [scoreLt] <;> omega

theorem pickMin_fold_mem (c : Option Nat × CachedArchive)
    (cs : List (Option Nat × CachedArchive)) :
    cs.foldl (fun best x => if candidateLt x best then x else best) c ∈
      c :: cs := by
  induction cs generalizing c with
  | nil => simp
  | cons x xs ih =>
    rw [List.foldl_cons]
    by_cases hc : candidateLt x c = true
    · rw [if_pos hc]
      rcases List.mem_cons.mp (ih x) with h | h <;> simp [List.mem_cons, h]
    · rw [if_neg hc]
      rcases List.mem_cons.mp (ih c) with h | h <;> simp [List.mem_cons, h]

theorem pickMin_fold_min (c : Option Nat × CachedArchive)
    (cs : List (Option Nat × CachedArchive)) :
    ∀ y ∈ c :: cs,
      scoreLt y.1
        (cs.foldl (fun best x => if candidateLt x best then x else best) c).1 =
        false := by
  induction cs generalizing c with
  | nil =>
    intro y hy
    rcases List.mem_cons.mp hy with rfl | h
    · exact scoreLt_irrefl _
    · simp at h
  | cons x xs ih =>
    intro y hy
    rw [List.foldl_cons]
    by_cases hc : candidateLt x c = true
    · rw [if_pos hc]
      rcases List.mem_cons.mp hy with rfl | hy2
      · have hx := ih x x (List.mem_cons_self x xs)
        by_contra hcon
        simp only [Bool.not_eq_false] at hcon
        unfold candidateLt at hc
        rcases Bool.or_eq_true_iff.mp hc with hlt | heq
        · have htr := scoreLt_trans x.1 y.1 _ hlt hcon
          rw [htr] at hx
          cases hx
        · have hxy : x.1 = y.1 := beq_iff_eq.mp (Bool.and_eq_true_iff.mp heq).1
          rw [← hxy] at hcon
          rw [hcon] at hx
          cases hx
      · rcases List.mem_cons.mp hy2 with rfl | hy3
        · exact ih y y (List.mem_cons_self y xs)
        · exact ih x y (List.mem_cons.mpr (Or.inr hy3))
    · rw [if_neg hc]
      rcases List.mem_cons.mp hy with rfl | hy2
      · exact ih y y (List.mem_cons_self y xs)
      · rcases List.mem_cons.mp hy2 with rfl | hy3
        · have hcb := ih c c (List.mem_cons_self c xs)
          have hc2 : candidateLt y c = false := by simpa using hc
          unfold candidateLt at hc2
          have hxc : scoreLt y.1 c.1 = false :=
            (Bool.or_eq_false_iff.mp hc2).1
          by_contra hcon
          simp only [Bool.not_eq_false] at hcon
          have htr := scoreLt_of_not_lt_of_lt y.1 c.1 _ hxc hcon
          rw [htr] at hcb
          cases hcb
        · exact ih c y (List.mem_cons.mpr (Or.inr hy3))

theorem archive_candidates_mem (env : EnvModel)
    (archives : List CachedArchive) (s : Option Nat) (a : CachedArchive)
    (h : (s, a) ∈ archive_candidates env archives) :
    a ∈ archives ∧
    ((hasWhlSuffix a.name = false ∧ s = none) ∨
     (hasWhlSuffix a.name = true ∧ ∃ tags i, a.wheel_tags = some tags ∧
       get_minimum_supported_index tags env.supported_tags = some i ∧
       s = some i)) := by
  induction archives with
  | nil => simp [archive_candidates] at h
  | cons b rest ih =>
    rw [archive_candidates] at h
    rcases List.mem_append.mp h with h1 | h2
    · by_cases hw : hasWhlSuffix b.name = true
      · rw [if_pos hw] at h1
        cases ht : b.wheel_tags with
        | none => simp only [ht] at h1; simp at h1
        | some tags =>
          simp only [ht] at h1
          cases hi : get_minimum_supported_index tags env.supported_tags with
          | none => simp only [hi] at h1; simp at h1
          | some i =>
            simp only [hi] at h1
            simp at h1
            obtain ⟨rfl, rfl⟩ := h1
            exact ⟨List.mem_cons_self _ _, Or.inr ⟨hw, tags, i, ht, hi, rfl⟩⟩
      · rw [if_neg hw] at h1
        simp at h1
        obtain ⟨rfl, rfl⟩ := h1
        exact ⟨List.mem_cons_self _ _, Or.inl ⟨by simpa using hw, rfl⟩⟩
    · obtain ⟨hm, hrest⟩ := ih h2
      exact ⟨List.mem_cons.mpr (Or.inr hm), hrest⟩

/-- C3: in non-strict mode with a target environment, the lookup scans the
cached files under the link's key, skips unparsable wheels and wheels
unsupported by the environment, scores supported wheels by minimum index
of their tags in the environment's supported-tag list and non-wheel
archives as infinity (none in the score order), and returns a candidate of
minimal score — absent when no candidate remains; in particular it prefers
a cp39-cp39-linux_x86_64 wheel over a py3-none-any wheel when the
environment ranks cp39-cp39-linux_x86_64 first. -/
theorem claim_C3_nonstrict_selection (env : EnvModel)
    (archives : List CachedArchive) (link_filename : String) :
    (archive_candidates env archives = [] →
      get_cached_archive_for_link link_filename false env archives = none)
  ∧ (∀ a, get_cached_archive_for_link link_filename false env archives =
        some a →
      ∃ s, (s, a) ∈ archive_candidates env archives ∧
        ∀ c ∈ archive_candidates env archives, scoreLt c.1 s = false)
  ∧ (∀ s a, (s, a) ∈ archive_candidates env archives →
      a ∈ archives ∧
      ((hasWhlSuffix a.name = false ∧ s = none) ∨
       (hasWhlSuffix a.name = true ∧ ∃ tags i, a.wheel_tags = some tags ∧
         get_minimum_supported_index tags env.supported_tags = some i ∧
         s = some i)))
  ∧ (∀ a, hasWhlSuffix a.name = true →
      (a.wheel_tags = none ∨
       (∃ tags, a.wheel_tags = some tags ∧
         get_minimum_supported_index tags env.supported_tags = none)) →
      ∀ s, (s, a) ∉ archive_candidates env archives)
  ∧ get_cached_archive_for_link "foo-1.0.tar.gz" false
      ⟨["cp39-cp39-linux_x86_64", "py3-none-any"]⟩
      [⟨"foo-1.0-py3-none-any.whl", some ["py3-none-any"]⟩,
       ⟨"foo-1.0-cp39-cp39-linux_x86_64.whl",
         some ["cp39-cp39-linux_x86_64"]⟩] =
      some ⟨"foo-1.0-cp39-cp39-linux_x86_64.whl",
        some ["cp39-cp39-linux_x86_64"]⟩ := by
  refine ⟨?_, ?_, fun s a h => archive_candidates_mem env archives s a h,
    ?_, by decide⟩
  · intro hc
    by_cases ha : archives = []
    · simp [get_cached_archive_for_link, ha]
    · simp [get_cached_archive_for_link, ha, hc, pickMinCandidate]
  · intro a ha
    by_cases harch : archives = []
    · simp [get_cached_archive_for_link, harch] at ha
    · rw [get_cached_archive_for_link, if_neg harch] at ha
      simp only [Bool.false_eq_true, if_false] at ha
      cases hc : archive_candidates env archives with
      | nil => rw [hc] at ha; simp [pickMinCandidate] at ha
      | cons c cs =>
        rw [hc] at ha
        simp only [pickMinCandidate, Option.map] at ha
        obtain rfl := Option.some.inj ha
        refine ⟨(cs.foldl
          (fun best x => if candidateLt x best then x else best) c).1, ?_, ?_⟩
        · exact pickMin_fold_mem c cs
        · intro y hy
          exact pickMin_fold_min c cs y hy
  · intro a hw hbad s hmem
    obtain ⟨_, hchar⟩ := archive_candidates_mem env archives s a hmem
    rcases hchar with ⟨hfw, _⟩ | ⟨_, tags, i, htags, hidx, _⟩
    · rw [hw] at hfw
      cases hfw
    · rcases hbad with hnone | ⟨tags2, htags2, hidx2⟩
      · rw [hnone] at htags
        cases htags
      · rw [htags2] at htags
        obtain rfl := Option.some.inj htags
        rw [hidx2] at hidx
        cases hidx

theorem claim_C3_witness :
    get_cached_archive_for_link "foo-1.0.tar.gz" false
      ⟨["cp39-cp39-linux_x86_64", "py3-none-any"]⟩ [] = none
  ∧ ∃ s, (s, (⟨"foo-1.0-cp39-cp39-linux_x86_64.whl",
        some ["cp39-cp39-linux_x86_64"]⟩ : CachedArchive)) ∈
      archive_candidates ⟨["cp39-cp39-linux_x86_64", "py3-none-any"]⟩
        [⟨"foo-1.0-py3-none-any.whl", some ["py3-none-any"]⟩,
         ⟨"foo-1.0-cp39-cp39-linux_x86_64.whl",
           some ["cp39-cp39-linux_x86_64"]⟩] ∧
      ∀ c ∈ archive_candidates ⟨["cp39-cp39-linux_x86_64", "py3-none-any"]⟩
        [⟨"foo-1.0-py3-none-any.whl", some ["py3-none-any"]⟩,
         ⟨"foo-1.0-cp39-cp39-linux_x86_64.whl",
           some ["cp39-cp39-linux_x86_64"]⟩], scoreLt c.1 s = false :=
  ⟨(claim_C3_nonstrict_selection
      ⟨["cp39-cp39-linux_x86_64", "py3-none-any"]⟩ [] "foo-1.0.tar.gz").1 rfl,
   (claim_C3_nonstrict_selection
      ⟨["cp39-cp39-linux_x86_64", "py3-none-any"]⟩
      [⟨"foo-1.0-py3-none-any.whl", some ["py3-none-any"]⟩,
       ⟨"foo-1.0-cp39-cp39-linux_x86_64.whl",
         some ["cp39-cp39-linux_x86_64"]⟩] "foo-1.0.tar.gz").2.1
      ⟨"foo-1.0-cp39-cp39-linux_x86_64.whl", some ["cp39-cp39-linux_x86_64"]⟩
      (by decide)⟩

theorem escapeJsonChar_plain (c : Char) (h : plainChar c = true) :
    escapeJsonChar c = [c] := by
  have hp := of_decide_eq_true h
  obtain ⟨h32, h126, hq, hb⟩ := hp
  unfold escapeJsonChar
  rw [if_neg hq, if_neg hb, if_neg (by omega), if_neg (by omega),
    if_neg (by omega), if_neg (by omega), if_neg (by omega),
    if_neg (by omega)]

theorem flatten_escape_plain (l : List Char) (h : l.all plainChar = true) :
    (l.map escapeJsonChar).flatten = l := by
  induction l with
  | nil => rfl
  | cons c cs ih =>
    rw [List.all_cons, Bool.and_eq_true] at h
    simp [escapeJsonChar_plain c h.1, ih h.2]

theorem escapeJson_plain (s : String) (h : plainStr s = true) :
    escapeJson s = s.data :=
  flatten_escape_plain s.data h

theorem plain_no_quote (s : String) (h : plainStr s = true) :
    ∀ c ∈ s.data, c ≠ quoteC := by
  intro c hc
  have := List.all_eq_true.mp h c hc
  exact (of_decide_eq_true this).2.2.1

theorem quote_seg_inj : ∀ (a b r t : List Char),
    (∀ c ∈ a, c ≠ quoteC) → (∀ c ∈ b, c ≠ quoteC) →
    a ++ quoteC :: r = b ++ quoteC :: t → a = b ∧ r = t := by
  intro a
  induction a with
  | nil =>
    intro b r t _ hb heq
    cases b with
    | nil => simpa using heq
    | cons d bs =>
      simp only [List.nil_append, List.cons_append, List.cons.injEq] at heq
      exact absurd heq.1.symm (hb d (List.mem_cons_self d bs))
  | cons c as ih =>
    intro b r t ha hb heq
    cases b with
    | nil =>
      simp only [List.nil_append, List.cons_append, List.cons.injEq] at heq
      exact absurd heq.1 (ha c (List.mem_cons_self c as))
    | cons d bs =>
      simp only [List.cons_append, List.cons.injEq] at heq
      obtain ⟨rfl, htail⟩ := heq
      obtain ⟨rfl, hrt⟩ := ih bs r t
        (fun x hx => ha x (List.mem_cons.mpr (Or.inr hx)))
        (fun x hx => hb x (List.mem_cons.mpr (Or.inr hx))) htail
      exact ⟨rfl, hrt⟩

theorem jsonMembers_decomp (k v : String) (rest : List (String × String)) :
    jsonMembers ((k, v) :: rest) ++ [rbraceC] =
      quoteC :: (escapeJson k ++ quoteC :: ':' :: quoteC ::
        (escapeJson v ++ quoteC ::
          (match rest with
           | [] => [rbraceC]
           | _ :: _ => ',' :: (jsonMembers rest ++ [rbraceC])))) := by
  cases rest <;> simp [jsonMembers, jsonMember, quoteJson]

theorem string_data_inj (a b : String) (h : a.data = b.data) : a = b := by
  cases a
  cases b
  exact congrArg String.mk h

theorem jsonMembers_inj : ∀ (l₁ l₂ : List (String × String)),
    (∀ p ∈ l₁, plainStr p.1 = true ∧ plainStr p.2 = true) →
    (∀ p ∈ l₂, plainStr p.1 = true ∧ plainStr p.2 = true) →
    jsonMembers l₁ ++ [rbraceC] = jsonMembers l₂ ++ [rbraceC] →
    l₁ = l₂ := by
  intro l₁
  induction l₁ with
  | nil =>
    intro l₂ _ _ heq
    cases l₂ with
    | nil => rfl
    | cons q qs =>
      obtain ⟨k, v⟩ := q
      rw [jsonMembers_decomp] at heq
      simp only [jsonMembers, List.nil_append, List.cons.injEq] at heq
      exact absurd heq.1 (by decide)
  | cons p ps ih =>
    intro l₂ hp1 hp2 heq
    obtain ⟨k₁, v₁⟩ := p
    cases l₂ with
    | nil =>
      rw [jsonMembers_decomp] at heq
      simp only [jsonMembers, List.nil_append, List.cons.injEq] at heq
      exact absurd heq.1 (by decide)
    | cons q qs =>
      obtain ⟨k₂, v₂⟩ := q
      rw [jsonMembers_decomp, jsonMembers_decomp] at heq
      simp only [List.cons.injEq, true_and] at heq
      have hpk₁ := (hp1 (k₁, v₁) (List.mem_cons_self _ _)).1
      have hpv₁ := (hp1 (k₁, v₁) (List.mem_cons_self _ _)).2
      have hpk₂ := (hp2 (k₂, v₂) (List.mem_cons_self _ _)).1
      have hpv₂ := (hp2 (k₂, v₂) (List.mem_cons_self _ _)).2
      rw [escapeJson_plain k₁ hpk₁, escapeJson_plain k₂ hpk₂,
        escapeJson_plain v₁ hpv₁, escapeJson_plain v₂ hpv₂] at heq
      obtain ⟨hkdata, hrest⟩ := quote_seg_inj k₁.data k₂.data _ _
        (plain_no_quote k₁ hpk₁) (plain_no_quote k₂ hpk₂) heq
      obtain rfl : k₁ = k₂ := string_data_inj k₁ k₂ hkdata
      simp only [List.cons.injEq, true_and] at hrest
      obtain ⟨hvdata, hs⟩ := quote_seg_inj v₁.data v₂.data _ _
        (plain_no_quote v₁ hpv₁) (plain_no_quote v₂ hpv₂) hrest
      obtain rfl : v₁ = v₂ := string_data_inj v₁ v₂ hvdata
      cases ps with
      | nil =>
        cases qs with
        | nil => rfl
        | cons q2 qs2 => exact absurd (List.cons.inj hs).1 (by decide)
      | cons p2 ps2 =>
        cases qs with
        | nil => exact absurd (List.cons.inj hs).1 (by decide)
        | cons q2 qs2 =>
          simp only [List.cons.injEq, true_and] at hs
          have := ih (q2 :: qs2)
            (fun x hx => hp1 x (List.mem_cons.mpr (Or.inr hx)))
            (fun x hx => hp2 x (List.mem_cons.mpr (Or.inr hx))) hs
          rw [this]

theorem jsonDumpObject_inj (l₁ l₂ : List (String × String))
    (h1 : ∀ p ∈ l₁, plainStr p.1 = true ∧ plainStr p.2 = true)
    (h2 : ∀ p ∈ l₂, plainStr p.1 = true ∧ plainStr p.2 = true)
    (heq : jsonDumpObject l₁ = jsonDumpObject l₂) : l₁ = l₂ := by
  unfold jsonDumpObject at heq
  have hd : lbraceC :: (jsonMembers l₁ ++ [rbraceC]) =
      lbraceC :: (jsonMembers l₂ ++ [rbraceC]) := congrArg String.data heq
  exact jsonMembers_inj l₁ l₂ h1 h2 (List.cons.inj hd).2

theorem split4_recombine (l : List Char) :
    l.take 2 ++ ((l.drop 2).take 2 ++ ((l.drop 4).take 2 ++ l.drop 6)) =
      l := by
  have h4 : (l.drop 2).drop 2 = l.drop 4 := by
    rw [List.drop_drop]
  have h6 : (l.drop 4).drop 2 = l.drop 6 := by
    rw [List.drop_drop]
  rw [← h6, List.take_append_drop, ← h4, List.take_append_drop,
    List.take_append_drop]

theorem cache_dir_eq_key_eq (sha256hex : String → String)
    (base : List String) (l₁ l₂ : Link)
    (h : get_cache_directory_for_link sha256hex base l₁ =
      get_cache_directory_for_link sha256hex base l₂) :
    sha256hex (link_key_json l₁) = sha256hex (link_key_json l₂) := by
  unfold get_cache_directory_for_link at h
  have h4 := List.append_cancel_left h
  simp only [List.cons.injEq, and_true] at h4
  obtain ⟨e1, e2, e3, e4⟩ := h4
  have d1 : (sha256hex (link_key_json l₁)).data.take 2 =
      (sha256hex (link_key_json l₂)).data.take 2 := congrArg String.data e1
  have d2 : ((sha256hex (link_key_json l₁)).data.drop 2).take 2 =
      ((sha256hex (link_key_json l₂)).data.drop 2).take 2 :=
    congrArg String.data e2
  have d3 : ((sha256hex (link_key_json l₁)).data.drop 4).take 2 =
      ((sha256hex (link_key_json l₂)).data.drop 4).take 2 :=
    congrArg String.data e3
  have d4 : (sha256hex (link_key_json l₁)).data.drop 6 =
      (sha256hex (link_key_json l₂)).data.drop 6 := congrArg String.data e4
  apply string_data_inj
  rw [← split4_recombine ((sha256hex (link_key_json l₁)).data),
    ← split4_recombine ((sha256hex (link_key_json l₂)).data), d1, d2, d3, d4]

theorem insertByKey_mem (p q : String × String) :
    ∀ l : List (String × String), q ∈ insertByKey p l ↔ q = p ∨ q ∈ l := by
  intro l
  induction l with
  | nil => simp [insertByKey]
  | cons x xs ih =>
    unfold insertByKey
    by_cases hc : strLe p.1 x.1 = true
    · rw [if_pos hc]
      simp [List.mem_cons]
    · rw [if_neg hc]
      simp only [List.mem_cons, ih]
      tauto

theorem sortByKey_mem (q : String × String) :
    ∀ l : List (String × String), q ∈ sortByKey l ↔ q ∈ l := by
  intro l
  induction l with
  | nil => simp [sortByKey]
  | cons x xs ih =>
    unfold sortByKey
    rw [insertByKey_mem, ih]
    simp [List.mem_cons]

theorem sortByKey_key_parts (link : Link) (n v : String)
    (hn : link.hash_name = some n) (hv : link.hash = some v)
    (h1 : charListLt "subdirectory".data n.data = false)
    (h2 : charListLt n.data "url".data = true) :
    sortByKey (link_key_parts link) =
      (n, v) :: ((if link.subdirectory_fragment.getD "" ≠ "" then
          [("subdirectory", link.subdirectory_fragment.getD "")] else []) ++
        [("url", link.url_without_fragment)]) := by
  have h3 : charListLt "subdirectory".data ("url" : String).data = true := by
    decide
  unfold link_key_parts
  rw [hn, hv]
  by_cases hsub : link.subdirectory_fragment.getD "" ≠ ""
  · rw [if_pos hsub]
    simp only [List.cons_append, List.nil_append, sortByKey, insertByKey,
      strLe, h1, h2, h3, Bool.not_false, Bool.not_true, if_true,
      Bool.false_eq_true, if_false]
  · rw [if_neg hsub]
    simp only [List.cons_append, List.nil_append, List.append_nil, sortByKey,
      insertByKey, strLe, h1, h2, Bool.not_false, Bool.not_true, if_true,
      Bool.false_eq_true, if_false]

theorem link_key_parts_mem (link : Link) (n v : String)
    (hn : link.hash_name = some n) (hv : link.hash = some v)
    (p : String × String) (hp : p ∈ link_key_parts link) :
    p = ("url", link.url_without_fragment) ∨ p = (n, v) ∨
    p = ("subdirectory", link.subdirectory_fragment.getD "") := by
  unfold link_key_parts at hp
  rw [hn, hv] at hp
  by_cases hsub : link.subdirectory_fragment.getD "" ≠ ""
  · rw [if_pos hsub] at hp
    simp only [List.cons_append, List.nil_append, List.mem_cons,
      List.mem_singleton, List.not_mem_nil, or_false] at hp
    tauto
  · rw [if_neg hsub] at hp
    simp only [List.cons_append, List.nil_append, List.append_nil,
      List.mem_cons, List.mem_singleton, List.not_mem_nil, or_false] at hp
    tauto

/-- C2: the ArtifactCache directory for a link depends only on the URL
without its fragment, the declared integrity hash (algorithm and value)
when present, and the subdirectory fragment when present — any other
fragment text is irrelevant, so links equal on those attributes share a
directory — and two links whose declared integrity hashes differ get
different directories (under an injective digest, for plain-ASCII
attribute values, with hash algorithm names that sort before
"subdirectory" and "url", as every real algorithm name does). -/
theorem claim_C2_cache_directory (sha256hex : String → String)
    (base : List String) :
    (∀ l₁ l₂ : Link,
      l₁.url_without_fragment = l₂.url_without_fragment →
      l₁.hash_name = l₂.hash_name → l₁.hash = l₂.hash →
      l₁.subdirectory_fragment = l₂.subdirectory_fragment →
      get_cache_directory_for_link sha256hex base l₁ =
        get_cache_directory_for_link sha256hex base l₂)
  ∧ (Function.Injective sha256hex →
      ∀ (l₁ l₂ : Link) (n₁ v₁ n₂ v₂ : String),
      l₁.hash_name = some n₁ → l₁.hash = some v₁ →
      l₂.hash_name = some n₂ → l₂.hash = some v₂ →
      (n₁, v₁) ≠ (n₂, v₂) →
      n₁ ≠ "subdirectory" → n₁ ≠ "url" →
      n₂ ≠ "subdirectory" → n₂ ≠ "url" →
      charListLt "subdirectory".data n₁.data = false →
      charListLt n₁.data "url".data = true →
      charListLt "subdirectory".data n₂.data = false →
      charListLt n₂.data "url".data = true →
      plainStr n₁ = true → plainStr v₁ = true →
      plainStr n₂ = true → plainStr v₂ = true →
      plainStr l₁.url_without_fragment = true →
      plainStr l₂.url_without_fragment = true →
      plainStr (l₁.subdirectory_fragment.getD "") = true →
      plainStr (l₂.subdirectory_fragment.getD "") = true →
      get_cache_directory_for_link sha256hex base l₁ ≠
        get_cache_directory_for_link sha256hex base l₂) := by
  constructor
  · intro l₁ l₂ hu hn hh hs
    unfold get_cache_directory_for_link link_key_json link_key_parts
    rw [hu, hn, hh, hs]
  · intro hinj l₁ l₂ n₁ v₁ n₂ v₂ hn₁ hv₁ hn₂ hv₂ hne hns₁ hnu₁ hns₂ hnu₂
      ho₁ ho₂ ho₃ ho₄ hp₁ hp₂ hp₃ hp₄ hpu₁ hpu₂ hps₁ hps₂ heq
    have hkey : link_key_json l₁ = link_key_json l₂ :=
      hinj (cache_dir_eq_key_eq sha256hex base l₁ l₂ heq)
    have hpurl : plainStr ("url" : String) = true := by decide
    have hpsub : plainStr ("subdirectory" : String) = true := by decide
    have hplain₁ : ∀ p ∈ sortByKey (link_key_parts l₁),
        plainStr p.1 = true ∧ plainStr p.2 = true := by
      intro p hp
      rcases link_key_parts_mem l₁ n₁ v₁ hn₁ hv₁ p
          ((sortByKey_mem p (link_key_parts l₁)).mp hp) with rfl | rfl | rfl
      · exact ⟨hpurl, hpu₁⟩
      · exact ⟨hp₁, hp₂⟩
      · exact ⟨hpsub, hps₁⟩
    have hplain₂ : ∀ p ∈ sortByKey (link_key_parts l₂),
        plainStr p.1 = true ∧ plainStr p.2 = true := by
      intro p hp
      rcases link_key_parts_mem l₂ n₂ v₂ hn₂ hv₂ p
          ((sortByKey_mem p (link_key_parts l₂)).mp hp) with rfl | rfl | rfl
      · exact ⟨hpurl, hpu₂⟩
      · exact ⟨hp₃, hp₄⟩
      · exact ⟨hpsub, hps₂⟩
    have hlists := jsonDumpObject_inj _ _ hplain₁ hplain₂
      (by unfold link_key_json at hkey; exact hkey)
    rw [sortByKey_key_parts l₁ n₁ v₁ hn₁ hv₁ ho₁ ho₂,
      sortByKey_key_parts l₂ n₂ v₂ hn₂ hv₂ ho₃ ho₄] at hlists
    exact hne (List.cons.inj hlists).1

theorem claim_C2_witness :
    get_cache_directory_for_link id []
      ⟨"https://h/p.whl", some "sha256", some "aa", none, "egg=foo"⟩ =
      get_cache_directory_for_link id []
        ⟨"https://h/p.whl", some "sha256", some "aa", none, ""⟩
  ∧ get_cache_directory_for_link id []
      ⟨"https://h/p.whl", some "sha256", some "aa", none, ""⟩ ≠
      get_cache_directory_for_link id []
        ⟨"https://h/p.whl", some "sha256", some "bb", none, ""⟩ :=
  ⟨(claim_C2_cache_directory id []).1
      ⟨"https://h/p.whl", some "sha256", some "aa", none, "egg=foo"⟩
      ⟨"https://h/p.whl", some "sha256", some "aa", none, ""⟩
      rfl rfl rfl rfl,
   (claim_C2_cache_directory id []).2 (fun _ _ h => h)
      ⟨"https://h/p.whl", some "sha256", some "aa", none, ""⟩
      ⟨"https://h/p.whl", some "sha256", some "bb", none, ""⟩
      "sha256" "aa" "sha256" "bb" rfl rfl rfl rfl (by decide) (by decide)
      (by decide) (by decide) (by decide) (by decide) (by decide) (by decide)
      (by decide) (by decide) (by decide) (by decide) (by decide) (by decide)
      (by decide) (by decide) (by decide)⟩
